import Mathlib

/-!
Verification development for the compiler front-end of the `my-lang`
repository: a shallow embedding in Lean 4 of its string interner
(`src/Basic/StringInterner.cpp`), diagnostic manager
(`src/Managers/DiagnosticManager.cpp`), source manager
(`src/Managers/FileManager.cpp`) and lexer (`Lexer.cpp`), together with
theorems about the data-model invariants and operations of those
components.  Machine integers of the C++ code are modelled as `Nat`
(no arithmetic here ever approaches `2^32`); fallible C++ results are
modelled with `Option` or sentinel values exactly where the code uses
sentinels (`FileID` 0, `SourceLocation` 0, null pointers).
-/

namespace ML

/-! ## Diagnostic manager (`src/Managers/DiagnosticManager.cpp`)

State reachable by `report` calls is the `DiagnosticStats` record; the
configuration fields of `DiagnosticManager` (`suppressWarnings`,
`suppressNotes`, `warningsAsErrors`, `maxErrors`) and the number of
registered consumers are modelled as a fixed `DMConfig`.  Consumers are
identified by their registration index `0, 1, ...`; a dispatch to all
consumers in registration order is the list `List.range numConsumers`.
-/

/-- Severity levels, from `enum class DiagnosticLevel`. -/
inductive DiagnosticLevel where
  | Note | Warning | Error | Fatal
  deriving Repr, DecidableEq

/-- The level counters of `struct DiagnosticStats` (all start at 0). -/
structure DiagnosticStats where
  noteCount : Nat := 0
  warningCount : Nat := 0
  errorCount : Nat := 0
  fatalCount : Nat := 0
  diagnosticCount : Nat := 0
  deriving Repr, DecidableEq

/-- Configuration of a `DiagnosticManager`: the filter flags, the error cap
(`maxErrors = 0` means unlimited) and the number of registered consumers. -/
structure DMConfig where
  suppressWarnings : Bool := false
  suppressNotes : Bool := false
  warningsAsErrors : Bool := false
  maxErrors : Nat := 0
  numConsumers : Nat := 0
  deriving Repr, DecidableEq

/-- `DiagnosticManager::shouldSuppress`: notes and warnings obey their
flags, errors and fatals are never suppressed. -/
def shouldSuppress (cfg : DMConfig) (level : DiagnosticLevel) : Bool :=
  match level with
  | .Note => cfg.suppressNotes
  | .Warning => cfg.suppressWarnings
  | .Error => false
  | .Fatal => false

/-- `DiagnosticManager::updateStats`: bump the counter of `level` and the
total count. -/
def updateStats (s : DiagnosticStats) (level : DiagnosticLevel) : DiagnosticStats :=
  let s' :=
    match level with
    | .Note => { s with noteCount := s.noteCount + 1 }
    | .Warning => { s with warningCount := s.warningCount + 1 }
    | .Error => { s with errorCount := s.errorCount + 1 }
    | .Fatal => { s with fatalCount := s.fatalCount + 1 }
  { s' with diagnosticCount := s'.diagnosticCount + 1 }

/-- `DiagnosticManager::report` (the `Diagnostic`-taking overload), as a
state transformer on the counters.  The second component is the list of
consumer indices the diagnostic is handed to, in registration order: empty
when the diagnostic is suppressed or when the error cap check
`maxErrors > 0 && stats.errorCount >= maxErrors` (performed after
`updateStats`) fires. -/
def report (cfg : DMConfig) (s : DiagnosticStats) (level : DiagnosticLevel) :
    DiagnosticStats × List Nat :=
  if shouldSuppress cfg level then (s, [])
  else
    let effectiveLevel :=
      if cfg.warningsAsErrors ∧ level = .Warning then .Error else level
    let s' := updateStats s effectiveLevel
    if 0 < cfg.maxErrors ∧ cfg.maxErrors ≤ s'.errorCount then (s', [])
    else (s', List.range cfg.numConsumers)

/-- `DiagnosticManager::shouldContinue`: false after any fatal and false
once the error cap is reached. -/
def shouldContinue (cfg : DMConfig) (s : DiagnosticStats) : Bool :=
  if 0 < s.fatalCount then false
  else if 0 < cfg.maxErrors ∧ cfg.maxErrors ≤ s.errorCount then false
  else true

/-- Fold a sequence of `report` calls (by the static level of each
reported diagnostic) over the freshly constructed manager state. -/
def runReports (cfg : DMConfig) (levels : List DiagnosticLevel) : DiagnosticStats :=
  levels.foldl (fun s l => (report cfg s l).1) {}

theorem report_fatalCount_le (cfg : DMConfig) (s : DiagnosticStats)
    (l : DiagnosticLevel) : s.fatalCount ≤ (report cfg s l).1.fatalCount := by
  cases l <;> simp only [report, updateStats, shouldSuppress] <;>
    split_ifs <;> simp_all

theorem report_fatal_pos (cfg : DMConfig) (s : DiagnosticStats) :
    0 < (report cfg s .Fatal).1.fatalCount := by
  simp only [report, updateStats, shouldSuppress]
  split_ifs <;> simp_all

theorem foldl_report_fatalCount_le (cfg : DMConfig) (s : DiagnosticStats)
    (ls : List DiagnosticLevel) :
    s.fatalCount ≤ (ls.foldl (fun s l => (report cfg s l).1) s).fatalCount := by
  induction ls generalizing s with
  | nil => exact Nat.le_refl _
  | cons l ls ih =>
      exact Nat.le_trans (report_fatalCount_le cfg s l) (ih _)

theorem foldl_report_fatal_mem (cfg : DMConfig) (s : DiagnosticStats)
    (ls : List DiagnosticLevel) (h : DiagnosticLevel.Fatal ∈ ls) :
    0 < (ls.foldl (fun s l => (report cfg s l).1) s).fatalCount := by
  induction ls generalizing s with
  | nil => cases h
  | cons l ls ih =>
      rcases List.mem_cons.mp h with rfl | hmem
      · calc 0 < (report cfg s .Fatal).1.fatalCount := report_fatal_pos cfg s
          _ ≤ _ := foldl_report_fatalCount_le cfg _ ls
      · exact ih _ hmem

/-- C4.  Error-cap behavior of `DiagnosticManager::report`: a reported,
non-suppressed diagnostic always updates the level counters (with a Warning
promoted to Error first when `warningsAsErrors` is set); when `maxErrors > 0`
and the error count has reached `maxErrors` it is dispatched to no consumer,
and when the cap check (performed on the updated count) does not fire it is
dispatched to every registered consumer in registration order. -/
theorem report_error_cap (cfg : DMConfig) (s : DiagnosticStats)
    (level : DiagnosticLevel) (hns : shouldSuppress cfg level = false) :
    (report cfg s level).1 =
        updateStats s
          (if cfg.warningsAsErrors ∧ level = .Warning then .Error else level) ∧
    (0 < cfg.maxErrors ∧ cfg.maxErrors ≤ s.errorCount →
        (report cfg s level).2 = []) ∧
    (0 < cfg.maxErrors ∧ cfg.maxErrors ≤ (report cfg s level).1.errorCount →
        (report cfg s level).2 = []) ∧
    (¬(0 < cfg.maxErrors ∧ cfg.maxErrors ≤ (report cfg s level).1.errorCount) →
        (report cfg s level).2 = List.range cfg.numConsumers) := by
  have upd : ∀ l : DiagnosticLevel, s.errorCount ≤ (updateStats s l).errorCount := by
    intro l; cases l <;> simp [updateStats]
  simp only [report, hns, Bool.false_eq_true, if_false]
  by_cases hcap :
      0 < cfg.maxErrors ∧ cfg.maxErrors ≤
        (updateStats s
          (if cfg.warningsAsErrors ∧ level = .Warning then .Error else level)).errorCount
  · rw [if_pos hcap]
    exact ⟨rfl, fun _ => rfl, fun _ => rfl, fun hn => absurd hcap hn⟩
  · rw [if_neg hcap]
    refine ⟨rfl, ?_, fun h => absurd h hcap, fun _ => rfl⟩
    intro hpre
    exact absurd ⟨hpre.1, Nat.le_trans hpre.2 (upd _)⟩ hcap

/-- Witness for `report_error_cap`: a concrete manager with `maxErrors = 1`
and two consumers, reporting an Error into the fresh state. -/
theorem report_error_cap_witness :
    shouldSuppress { maxErrors := 1, numConsumers := 2 } .Error = false ∧
    (report { maxErrors := 1, numConsumers := 2 } {} .Error).1 =
        updateStats {}
          (if ({ maxErrors := 1, numConsumers := 2 } : DMConfig).warningsAsErrors ∧
              DiagnosticLevel.Error = .Warning then .Error else .Error) ∧
    (0 < 1 ∧ 1 ≤ (0 : Nat) → (report { maxErrors := 1, numConsumers := 2 } {} .Error).2 = []) ∧
    (0 < 1 ∧ 1 ≤ (report { maxErrors := 1, numConsumers := 2 } {} .Error).1.errorCount →
        (report { maxErrors := 1, numConsumers := 2 } {} .Error).2 = []) ∧
    (¬(0 < 1 ∧ 1 ≤ (report { maxErrors := 1, numConsumers := 2 } {} .Error).1.errorCount) →
        (report { maxErrors := 1, numConsumers := 2 } {} .Error).2 = List.range 2) :=
  ⟨by decide, report_error_cap { maxErrors := 1, numConsumers := 2 } {} .Error (by decide)⟩

/-- C5.  Fatal short-circuit: in every state reachable by a sequence of
`report` calls on a fresh `DiagnosticManager` (no `reset`), once a Fatal
diagnostic has been reported `shouldContinue` returns false, and it also
returns false once `maxErrors > 0` and the error count has reached
`maxErrors`. -/
theorem shouldContinue_fatal_short_circuit (cfg : DMConfig)
    (ls : List DiagnosticLevel)
    (h : DiagnosticLevel.Fatal ∈ ls ∨
      (0 < cfg.maxErrors ∧ cfg.maxErrors ≤ (runReports cfg ls).errorCount)) :
    shouldContinue cfg (runReports cfg ls) = false := by
  rcases h with hf | hcap
  · have : 0 < (runReports cfg ls).fatalCount :=
      foldl_report_fatal_mem cfg {} ls hf
    simp [shouldContinue, this]
  · simp only [shouldContinue, hcap, if_true]
    split <;> rfl

/-- Witness for `shouldContinue_fatal_short_circuit`: a single Fatal report
on a default-configured manager. -/
theorem shouldContinue_fatal_short_circuit_witness :
    (DiagnosticLevel.Fatal ∈ [DiagnosticLevel.Fatal] ∨
      (0 < (({} : DMConfig)).maxErrors ∧
        ({} : DMConfig).maxErrors ≤ (runReports {} [.Fatal]).errorCount)) ∧
    shouldContinue {} (runReports {} [.Fatal]) = false :=
  ⟨Or.inl (by decide),
   shouldContinue_fatal_short_circuit {} [.Fatal] (Or.inl (by decide))⟩

/-! ## String interner (`src/Basic/StringInterner.cpp`)

A single-threaded interner state is the list of stored strings in
insertion order; a handle (an `InternedString`, whose identity in the C++
is a raw pointer) is either the null handle (default `InternedString()`),
the fixed empty handle (the static `empty_str` buffer of `intern`), or the
identity of the `idx`-th storage entry.  Two storage entries are distinct
allocations, so distinct indices model distinct pointers, and both are
distinct from the static empty buffer and from null. -/

/-- An `InternedString` handle, by the identity of what its pointer points
to. -/
inductive Handle where
  | null
  | emptyHandle
  | stored (idx : Nat)
  deriving Repr, DecidableEq

/-- `InternedString::isValid`: the pointer is non-null. -/
def Handle.isValid : Handle → Bool
  | .null => false
  | _ => true

/-- Interner state: the stored strings in insertion order (`Storage`); the
lookup map `LookupMap` holds exactly these strings as keys. -/
abbrev InternerState := List String

/-- `StringInterner::intern`: empty input returns the fixed empty handle
without touching the state; otherwise the string is looked up in the map
(returning the handle stored at its first interning) and inserted when
absent. -/
def intern (st : InternerState) (s : String) : InternerState × Handle :=
  if s = "" then (st, .emptyHandle)
  else if s ∈ st then (st, .stored (List.indexOf s st))
  else (st ++ [s], .stored st.length)

/-- `StringInterner::lookup`: a map lookup returning the stored handle, or
the null (invalid) handle when the key is absent. -/
def lookup (st : InternerState) (s : String) : Handle :=
  if s ∈ st then .stored (List.indexOf s st) else .null

/-- `StringInterner::contains`: a map membership test. -/
def contains (st : InternerState) (s : String) : Bool := decide (s ∈ st)

/-- Run a sequence of `intern` calls from a given state, returning the
final state. -/
def runInternsFrom (st : InternerState) (ops : List String) : InternerState :=
  ops.foldl (fun st s => (intern st s).1) st

/-- Run a sequence of `intern` calls on a freshly constructed interner. -/
def runInterns (ops : List String) : InternerState := runInternsFrom [] ops

/-- The handles returned by a sequence of `intern` calls starting from a
given state, in call order. -/
def internTraceAux (st : InternerState) : List String → List Handle
  | [] => []
  | s :: rest => (intern st s).2 :: internTraceAux (intern st s).1 rest

/-- The handles returned by a sequence of `intern` calls on a freshly
constructed interner, in call order. -/
def internTrace (ops : List String) : List Handle := internTraceAux [] ops

theorem intern_state_extends (st : InternerState) (s : String) :
    ∃ ext, (intern st s).1 = st ++ ext := by
  unfold intern
  split
  · exact ⟨[], by simp⟩
  · split
    · exact ⟨[], by simp⟩
    · exact ⟨[s], rfl⟩

theorem runInternsFrom_extends (st : InternerState) (ops : List String) :
    ∃ ext, runInternsFrom st ops = st ++ ext := by
  induction ops generalizing st with
  | nil => exact ⟨[], by simp [runInternsFrom]⟩
  | cons s rest ih =>
      obtain ⟨e1, h1⟩ := intern_state_extends st s
      obtain ⟨e2, h2⟩ := ih (intern st s).1
      refine ⟨e1 ++ e2, ?_⟩
      have : runInternsFrom st (s :: rest) = runInternsFrom (intern st s).1 rest := rfl
      rw [this, h2, h1, List.append_assoc]

theorem empty_not_mem_intern (st : InternerState) (s : String)
    (h : "" ∉ st) : "" ∉ (intern st s).1 := by
  unfold intern
  split
  · exact h
  · split
    · exact h
    · next hne _ =>
        intro hmem
        rcases List.mem_append.mp hmem with hl | hr
        · exact h hl
        · simp only [List.mem_singleton] at hr
          exact hne hr.symm

theorem empty_not_mem_runInternsFrom (st : InternerState) (ops : List String)
    (h : "" ∉ st) : "" ∉ runInternsFrom st ops := by
  induction ops generalizing st with
  | nil => exact h
  | cons s rest ih => exact ih (intern st s).1 (empty_not_mem_intern st s h)

theorem mem_runInternsFrom_of_mem (st : InternerState) (ops : List String)
    (s : String) (h : s ∈ st) : s ∈ runInternsFrom st ops := by
  obtain ⟨ext, hext⟩ := runInternsFrom_extends st ops
  rw [hext]; exact List.mem_append_left _ h

/-- The handle returned by the `i`-th `intern` call of a sequence, expressed
against the final state: the empty handle for the empty string, otherwise
the storage index of the string's first insertion. -/
theorem internTraceAux_getD (st : InternerState) (ops : List String) (i : Nat)
    (hi : i < ops.length) :
    (internTraceAux st ops).getD i .null =
      if ops.getD i "" = "" then .emptyHandle
      else .stored (List.indexOf (ops.getD i "") (runInternsFrom st ops)) := by
  induction ops generalizing st i with
  | nil => simp at hi
  | cons s rest ih =>
      have hrun : runInternsFrom st (s :: rest) = runInternsFrom (intern st s).1 rest := rfl
      cases i with
      | zero =>
          simp only [internTraceAux, List.getD_cons_zero, hrun]
          by_cases hs : s = ""
          · simp [intern, hs]
          · simp only [hs, if_false]
            unfold intern
            simp only [hs, if_false]
            by_cases hmem : s ∈ st
            · simp only [hmem, if_true]
              obtain ⟨ext, hext⟩ := runInternsFrom_extends st rest
              rw [hext, List.indexOf_append_of_mem hmem]
            · simp only [hmem, if_false]
              obtain ⟨ext, hext⟩ := runInternsFrom_extends (st ++ [s]) rest
              rw [hext, List.append_assoc, List.indexOf_append_of_not_mem hmem]
              simp [List.singleton_append, List.indexOf_cons_self]
      | succ i =>
          simp only [internTraceAux, List.getD_cons_succ, hrun]
          exact ih (intern st s).1 i (by simpa using hi)

theorem mem_intern_self (st : InternerState) (s : String) (hs : s ≠ "") :
    s ∈ (intern st s).1 := by
  unfold intern
  simp only [hs, if_false]
  split
  · assumption
  · exact List.mem_append_right _ (List.mem_singleton.mpr rfl)

theorem getD_mem_runInternsFrom (st : InternerState) (ops : List String)
    (i : Nat) (hi : i < ops.length) (hne : ops.getD i "" ≠ "") :
    ops.getD i "" ∈ runInternsFrom st ops := by
  induction ops generalizing st i with
  | nil => simp at hi
  | cons s rest ih =>
      have hrun : runInternsFrom st (s :: rest) =
          runInternsFrom (intern st s).1 rest := rfl
      cases i with
      | zero =>
          simp only [List.getD_cons_zero] at hne ⊢
          rw [hrun]
          exact mem_runInternsFrom_of_mem _ _ _ (mem_intern_self st s hne)
      | succ i =>
          simp only [List.getD_cons_succ] at hne ⊢
          rw [hrun]
          exact ih (intern st s).1 i (by simpa using hi) hne

/-- C7.  Interner identity and stability: along any single-threaded
sequence of `intern` calls on one fresh interner (no `clear`), the handles
returned by the `i`-th and `j`-th calls are equal iff the interned strings
are byte-equal (this subsumes stability: a repeated string gets its first
handle again), and interning the empty string returns the fixed non-null
empty handle. -/
theorem intern_identity_and_stability (ops : List String) (i j : Nat)
    (hi : i < ops.length) (hj : j < ops.length) :
    ((internTrace ops).getD i .null = (internTrace ops).getD j .null ↔
      ops.getD i "" = ops.getD j "") ∧
    (intern (runInterns ops) "").2 = .emptyHandle ∧
    ((intern (runInterns ops) "").2).isValid = true := by
  refine ⟨?_, by simp [intern], by simp [intern, Handle.isValid]⟩
  rw [internTrace, internTraceAux_getD [] ops i hi, internTraceAux_getD [] ops j hj]
  by_cases hei : ops.getD i "" = "" <;> by_cases hej : ops.getD j "" = ""
  · rw [if_pos hei, if_pos hej, hei, hej]; simp
  · rw [if_pos hei, if_neg hej]
    constructor
    · intro h; cases h
    · intro h; rw [hei] at h; exact absurd h.symm hej
  · rw [if_neg hei, if_pos hej]
    constructor
    · intro h; cases h
    · intro h; rw [hej] at h; exact absurd h hei
  · rw [if_neg hei, if_neg hej, Handle.stored.injEq]
    exact List.indexOf_inj
      (getD_mem_runInternsFrom [] ops i hi hei)
      (getD_mem_runInternsFrom [] ops j hj hej)

/-- Witness for `intern_identity_and_stability`: the sequence
`intern "a"; intern ""; intern "a"` — the first and third handles agree. -/
theorem intern_identity_and_stability_witness :
    ((internTrace ["a", "", "a"]).getD 0 .null =
        (internTrace ["a", "", "a"]).getD 2 .null ↔
      (["a", "", "a"].getD 0 "" = ["a", "", "a"].getD 2 "")) ∧
    (intern (runInterns ["a", "", "a"]) "").2 = .emptyHandle ∧
    ((intern (runInterns ["a", "", "a"]) "").2).isValid = true :=
  intern_identity_and_stability ["a", "", "a"] 0 2 (by decide) (by decide)

/-- C10.  Empty-string asymmetry of the query operations: in every
reachable interner state (including after `intern ""`), `contains ""` is
false and `lookup ""` is the null, invalid handle — the empty string is
never inserted into the lookup map — while `lookup s` after `intern s` is
valid for every non-empty `s`. -/
theorem lookup_empty_string_asymmetry (ops : List String) (s : String)
    (hs : s ≠ "") :
    contains (runInterns ops) "" = false ∧
    lookup (runInterns ops) "" = .null ∧
    ((lookup (runInterns ops) "").isValid = false) ∧
    ((lookup (runInterns (ops ++ [s])) s).isValid = true) := by
  have hne : "" ∉ runInterns ops := empty_not_mem_runInternsFrom [] ops (by simp)
  refine ⟨by simp [contains, hne], by simp [lookup, hne],
    by simp [lookup, hne, Handle.isValid], ?_⟩
  have hmem : s ∈ runInterns (ops ++ [s]) := by
    unfold runInterns runInternsFrom
    rw [List.foldl_append, List.foldl_cons, List.foldl_nil]
    exact mem_intern_self _ s hs
  simp [lookup, hmem, Handle.isValid]

/-- Witness for `lookup_empty_string_asymmetry`: after `intern ""` the empty
string is still absent, while `"a"` is found right after `intern "a"`. -/
theorem lookup_empty_string_asymmetry_witness :
    contains (runInterns [""]) "" = false ∧
    lookup (runInterns [""]) "" = .null ∧
    ((lookup (runInterns [""]) "").isValid = false) ∧
    ((lookup (runInterns ([""] ++ ["a"])) "a").isValid = true) :=
  lookup_empty_string_asymmetry [""] "a" (by decide)

/-! ## Source manager (`SourceManager` in `src/Managers/FileManager.cpp`)

The file table is the list of `FileInfo` records (file content buffer and
start offset in the global 32-bit location space); `SourceLocation` and
`FileID` are raw `Nat` values with 0 the invalid sentinel, exactly as in
the C++ encoding.  `createFileID` models `createFileIDImpl` on a fresh
canonical filename: it reserves the file's start offset by
`getNextLocationID` (an atomic `fetch_add(1)` on the counter, which starts
at 1 because 0 is reserved for the invalid location) and appends to the
table.  `getFileID` models the authoritative binary-search path (the
thread-local `g_location_cache` starts invalidated, and cache misses must
recompute authoritatively); `upperBoundLoc` is the canonical
`std::upper_bound` binary search over the table ordered by start offset.
A character pointer into a file buffer is modelled as the pair
(file id, byte offset) it addresses. -/

/-- A row of the source manager's file table: the file's bytes (the
`FileEntry` buffer, with `size` its length) and its start offset in the
global location space. -/
structure FileInfo where
  content : List Char
  offset : Nat
  deriving Repr, DecidableEq

/-- `FileEntry::getSize` of the file behind a table row. -/
def FileInfo.size (f : FileInfo) : Nat := f.content.length

/-- Source manager state: file table plus the `nextLocationID` counter. -/
structure SourceManager where
  loadedFiles : List FileInfo
  nextLocationID : Nat
  deriving Repr, DecidableEq

/-- A freshly constructed source manager: empty table, counter at 1
(location 0 is reserved for the invalid location). -/
def initialSourceManager : SourceManager := ⟨[], 1⟩

/-- `SourceManager::getNextLocationID`: `nextLocationID.fetch_add(1)`
returns the old counter value and advances the counter by one. -/
def getNextLocationID (sm : SourceManager) : Nat × SourceManager :=
  (sm.nextLocationID, { sm with nextLocationID := sm.nextLocationID + 1 })

/-- `SourceManager::createFileIDImpl` for a not-yet-loaded canonical
filename: reserve the start offset via `getNextLocationID`, append the
`FileInfo`, and return the 1-based `FileID`. -/
def createFileID (sm : SourceManager) (content : List Char) :
    Nat × SourceManager :=
  let p := getNextLocationID sm
  (sm.loadedFiles.length + 1,
   { loadedFiles := sm.loadedFiles ++ [⟨content, p.1⟩],
     nextLocationID := p.2.nextLocationID })

/-- Load a sequence of distinct files into a fresh source manager. -/
def createFiles (contents : List (List Char)) : SourceManager :=
  contents.foldl (fun sm c => (createFileID sm c).2) initialSourceManager

/-- `SourceManager::getLocForFileOffset`: invalid for an out-of-table fid
or an offset beyond the file size, else the file's start offset plus the
byte offset. -/
def getLocForFileOffset (sm : SourceManager) (fid : Nat) (offset : Nat) : Nat :=
  if fid = 0 ∨ sm.loadedFiles.length < fid then 0
  else
    let info := sm.loadedFiles.getD (fid - 1) ⟨[], 0⟩
    if info.size < offset then 0 else info.offset + offset

/-- `SourceManager::getLocForStartOfFile`. -/
def getLocForStartOfFile (sm : SourceManager) (fid : Nat) : Nat :=
  if fid = 0 ∨ sm.loadedFiles.length < fid then 0
  else (sm.loadedFiles.getD (fid - 1) ⟨[], 0⟩).offset

/-- `SourceManager::getLocForEndOfFile`: start offset plus file size. -/
def getLocForEndOfFile (sm : SourceManager) (fid : Nat) : Nat :=
  if fid = 0 ∨ sm.loadedFiles.length < fid then 0
  else
    let info := sm.loadedFiles.getD (fid - 1) ⟨[], 0⟩
    info.offset + info.size

/-- One halving loop of the canonical `std::upper_bound` implementation,
searching the file table ordered by `offset`.  The `fuel` argument only
makes the recursion structural: every iteration strictly shrinks `count`,
so with `fuel = count` at the call site the fuel never runs out. -/
def upperBoundLocAux (files : List FileInfo) (loc : Nat) :
    Nat → Nat → Nat → Nat
  | 0, first, _ => first
  | fuel + 1, first, count =>
    if 0 < count then
      let step := count / 2
      let mid := first + step
      if loc < (files.getD mid ⟨[], 0⟩).offset then
        upperBoundLocAux files loc fuel first step
      else
        upperBoundLocAux files loc fuel (mid + 1) (count - (step + 1))
    else first

/-- The canonical `std::upper_bound` binary search over the file table
(ordered by `offset`): first position whose file start offset exceeds
`loc`. -/
def upperBoundLoc (files : List FileInfo) (loc : Nat) (first count : Nat) : Nat :=
  upperBoundLocAux files loc count first count

/-- `SourceManager::getFileID` (authoritative path, cache invalidated):
binary search for the file whose owned interval contains `loc`, rejecting
locations outside every owned interval `[start, start + size]`. -/
def getFileID (sm : SourceManager) (loc : Nat) : Nat :=
  if loc = 0 then 0
  else
    let i := upperBoundLoc sm.loadedFiles loc 0 sm.loadedFiles.length
    if i = 0 then 0
    else
      let info := sm.loadedFiles.getD (i - 1) ⟨[], 0⟩
      if loc < info.offset ∨ info.offset + info.size < loc then 0 else i

/-- `SourceManager::getFileOffset`: 0 for an unmapped location, else the
location minus the owning file's start offset. -/
def getFileOffset (sm : SourceManager) (loc : Nat) : Nat :=
  let fid := getFileID sm loc
  if fid = 0 then 0
  else loc - (sm.loadedFiles.getD (fid - 1) ⟨[], 0⟩).offset

/-- `SourceManager::getCharacterData`: null for an unmapped location or an
offset at or beyond the file size, else the buffer pointer, modelled as
the (file id, byte offset) pair it addresses. -/
def getCharacterData (sm : SourceManager) (loc : Nat) : Option (Nat × Nat) :=
  let fid := getFileID sm loc
  if fid = 0 then none
  else
    let info := sm.loadedFiles.getD (fid - 1) ⟨[], 0⟩
    let off := getFileOffset sm loc
    if info.size ≤ off then none else some (fid, off)

/-- `SourceManager::getSourceText` on two locations: empty for an invalid
location, a cross-file range, a null character pointer on either side, or
`startPtr > endPtr`; otherwise the bytes from `startPtr` (inclusive) to
`endPtr` (exclusive), i.e. `std::string(startPtr, endPtr)`. -/
def getSourceText (sm : SourceManager) (s e : Nat) : List Char :=
  if s = 0 ∨ e = 0 then []
  else if getFileID sm s ≠ getFileID sm e then []
  else
    match getCharacterData sm s, getCharacterData sm e with
    | some p1, some p2 =>
        if p2.2 < p1.2 then []
        else ((sm.loadedFiles.getD (p1.1 - 1) ⟨[], 0⟩).content.drop p1.2).take
          (p2.2 - p1.2)
    | _, _ => []

/-- C1 counter-evidence.  After loading two one-byte files,
`getNextLocationID` has advanced the counter by only one per file
(`fetch_add(1)`), so file 1 owns `[1, 2]` and file 2 owns `[2, 3]`:
location 2 = `getLocForFileOffset 1 1` lies in both, and the round trip
resolves it to file 2 at offset 0 instead of file 1 at offset 1. -/
theorem location_roundtrip_failing_input :
    getLocForFileOffset (createFiles [['a'], ['b']]) 1 1 = 2 ∧
    getFileID (createFiles [['a'], ['b']])
      (getLocForFileOffset (createFiles [['a'], ['b']]) 1 1) = 2 ∧
    getFileOffset (createFiles [['a'], ['b']])
      (getLocForFileOffset (createFiles [['a'], ['b']]) 1 1) = 0 ∧
    getLocForStartOfFile (createFiles [['a'], ['b']]) 1 ≤ 2 ∧
    2 ≤ getLocForEndOfFile (createFiles [['a'], ['b']]) 1 ∧
    getLocForStartOfFile (createFiles [['a'], ['b']]) 2 ≤ 2 ∧
    2 ≤ getLocForEndOfFile (createFiles [['a'], ['b']]) 2 := by
  decide

theorem getFileID_range (sm : SourceManager) (loc f : Nat)
    (heq : getFileID sm loc = f) (hf : f ≠ 0) :
    (sm.loadedFiles.getD (f - 1) ⟨[], 0⟩).offset ≤ loc ∧
    loc ≤ (sm.loadedFiles.getD (f - 1) ⟨[], 0⟩).offset +
      (sm.loadedFiles.getD (f - 1) ⟨[], 0⟩).size := by
  simp only [getFileID] at heq
  split_ifs at heq with h0 hi hr
  · exact absurd heq.symm hf
  · exact absurd heq.symm hf
  · exact absurd heq.symm hf
  · push_neg at hr
    subst heq
    exact hr

theorem loc_ne_zero_of_getFileID_ne_zero (sm : SourceManager) (loc f : Nat)
    (heq : getFileID sm loc = f) (hf : f ≠ 0) : loc ≠ 0 := by
  intro h0
  subst h0
  unfold getFileID at heq
  simp at heq
  exact hf heq.symm

/-- C9.  End-exclusivity and end-of-file edge of `getSourceText`: for two
locations resolving to the same valid file with start offset ≤ end offset,
the result is exactly the half-open byte interval from the start offset
(inclusive) to the end offset (exclusive) while the end offset is inside
the file, and it degenerates to the empty string whenever the end offset
equals the file size (the end-of-file location), because
`getCharacterData` returns null at offsets at or beyond the size. -/
theorem getSourceText_end_exclusive (sm : SourceManager) (b e f : Nat)
    (hb : getFileID sm b = f) (he : getFileID sm e = f) (hf : f ≠ 0)
    (hle : getFileOffset sm b ≤ getFileOffset sm e) :
    (getFileOffset sm e < (sm.loadedFiles.getD (f - 1) ⟨[], 0⟩).size →
      getSourceText sm b e =
        ((sm.loadedFiles.getD (f - 1) ⟨[], 0⟩).content.drop
          (getFileOffset sm b)).take
            (getFileOffset sm e - getFileOffset sm b)) ∧
    (getFileOffset sm e = (sm.loadedFiles.getD (f - 1) ⟨[], 0⟩).size →
      getSourceText sm b e = []) := by
  have hbne : b ≠ 0 := loc_ne_zero_of_getFileID_ne_zero sm b f hb hf
  have hene : e ≠ 0 := loc_ne_zero_of_getFileID_ne_zero sm e f he hf
  have hsame : ¬(getFileID sm b ≠ getFileID sm e) := by rw [hb, he]; simp
  have hcdb : getCharacterData sm b =
      if (sm.loadedFiles.getD (f - 1) ⟨[], 0⟩).size ≤ getFileOffset sm b
      then none else some (f, getFileOffset sm b) := by
    unfold getCharacterData
    rw [hb]
    simp [hf]
  have hcde : getCharacterData sm e =
      if (sm.loadedFiles.getD (f - 1) ⟨[], 0⟩).size ≤ getFileOffset sm e
      then none else some (f, getFileOffset sm e) := by
    unfold getCharacterData
    rw [he]
    simp [hf]
  constructor
  · intro hlt
    have hblt : getFileOffset sm b <
        (sm.loadedFiles.getD (f - 1) ⟨[], 0⟩).size := Nat.lt_of_le_of_lt hle hlt
    unfold getSourceText
    rw [if_neg (by simp [hbne, hene]), if_neg hsame, hcdb, hcde,
      if_neg (Nat.not_le.mpr hblt), if_neg (Nat.not_le.mpr hlt)]
    simp only
    rw [if_neg (Nat.not_lt.mpr hle)]
  · intro heq
    unfold getSourceText
    rw [if_neg (by simp [hbne, hene]), if_neg hsame, hcdb, hcde,
      if_pos (Nat.le_of_eq heq.symm)]
    split <;> simp_all

/-- Witness for `getSourceText_end_exclusive`: one file `"ab"` (locations
1..3); the range `[1, 2)` yields byte `a`, and any range ending at the
end-of-file location 3 (offset 2 = size) yields the empty string. -/
theorem getSourceText_end_exclusive_witness :
    ((getFileOffset (createFiles [['a', 'b']]) 2 <
        ((createFiles [['a', 'b']]).loadedFiles.getD 0 ⟨[], 0⟩).size →
      getSourceText (createFiles [['a', 'b']]) 1 2 =
        (((createFiles [['a', 'b']]).loadedFiles.getD 0 ⟨[], 0⟩).content.drop
          (getFileOffset (createFiles [['a', 'b']]) 1)).take
            (getFileOffset (createFiles [['a', 'b']]) 2 -
              getFileOffset (createFiles [['a', 'b']]) 1)) ∧
    (getFileOffset (createFiles [['a', 'b']]) 2 =
        ((createFiles [['a', 'b']]).loadedFiles.getD 0 ⟨[], 0⟩).size →
      getSourceText (createFiles [['a', 'b']]) 1 2 = [])) ∧
    getSourceText (createFiles [['a', 'b']]) 1 2 = ['a'] ∧
    getSourceText (createFiles [['a', 'b']]) 1 3 = [] ∧
    getSourceText (createFiles [['a', 'b']]) 2 3 = [] :=
  ⟨getSourceText_end_exclusive (createFiles [['a', 'b']]) 1 2 1
    (by decide) (by decide) (by decide) (by decide),
   by decide, by decide, by decide⟩

/-! ## Lexer (`Lexer.cpp`)

The lexer is embedded over a `List Char` input buffer with an explicit
cursor `pos` (the C++ `current` pointer as a byte offset) and the
`lineStart` offset (the C++ `lineStart` pointer).  `charAt` is the C++
`peek`: the byte at the cursor, or `'\x00'` at or past the end.  A token
location is the byte offset of its first byte — in the file-backed lexer
`getLocationAt` maps the offset through `getLocForFileOffset`, an
order-embedding on a single file, which the model keeps as the offset
itself.  Token text is the interned spelling, modelled by its string
content (the interner maps equal content to equal handles).  Diagnostics
are recorded as the list of `DiagnosticManager::report` calls the lexer
makes, in order.  Performance options are fixed at their `LexerOptions`
defaults (`enableLookupTables = true`, `enableFastPath = true`,
`enableSimdOptimizations = false`, prefetching irrelevant); per the spec
they must not alter the token stream, and the lookup-table and fallback
classifiers of the source agree byte-for-byte. -/

/-- `enum class TokenKind` (the `Type` keyword kind is spelled `TypeKw`
because `Type` is reserved in Lean). -/
inductive TokenKind where
  | Unknown | EndOfFile
  | Integer | Float | String | Character | Boolean
  | Identifier
  | Auto | Break | Case | Const | Continue | Default | Do | Else | Enum | Extern
  | False | For | Fn | If | Import | Let | Mod | Mut | Null | Return
  | Struct | Switch | True | TypeKw | Var | While
  | Plus | Minus | Star | Slash | Percent
  | Equal | PlusEqual | MinusEqual | StarEqual | SlashEqual | PercentEqual
  | EqualEqual | NotEqual | Less | LessEqual | Greater | GreaterEqual
  | AmpAmp | PipePipe | Exclaim
  | Amp | Pipe | Caret | Tilde | LesserLesser | GreaterGreater
  | PlusPlus | MinusMinus
  | LeftParen | RightParen | LeftBrace | RightBrace | LeftBracket | RightBracket
  | Semicolon | Comma | Dot | Arrow | ColonColon | Colon | Question | At | Hash
  | Backslash
  | LineComment | BlockComment
  | Whitespace | Newline
  deriving Repr, DecidableEq

/-- The four bits of `enum class TokenFlags`. -/
structure TokenFlags where
  atStartOfLine : Bool := false
  hasLeadingSpace : Bool := false
  needsCleaning : Bool := false
  isKeyword : Bool := false
  deriving Repr, DecidableEq

/-- A `Token`: kind, location of the first byte, byte length, flags, and
the interned text for identifiers and literals (null otherwise), as the
byte content the interned handle stands for. -/
structure Token where
  kind : TokenKind
  loc : Nat
  length : Nat
  flags : TokenFlags := {}
  text : Option (List Char) := none
  deriving Repr, DecidableEq

/-- The diagnostic identifiers the lexer reports. -/
inductive DiagnosticID where
  | UnterminatedStringLiteralError
  | UnterminatedCharacterLiteralError
  | UnexpectedValueError
  deriving Repr, DecidableEq

/-- One `DiagnosticManager::report` call made by the lexer: the id, the
location it is attached to, and the message arguments. -/
structure Diag where
  id : DiagnosticID
  loc : Nat
  args : List String := []
  deriving Repr, DecidableEq

/-- `Lexer::peek` at an absolute offset: the byte there, `'\x00'` at or
past the end of the buffer. -/
def charAt (src : List Char) (pos : Nat) : Char := src.getD pos '\x00'

/-- `isAlphaFast` from `CHAR_CLASS_TABLE`: letters and `'_'` carry the
ALPHA bit. -/
def isAlphaFast (c : Char) : Bool :=
  (97 ≤ c.toNat && c.toNat ≤ 122) || (65 ≤ c.toNat && c.toNat ≤ 90) ||
    c.toNat == 95

/-- `isDigitFast` from `CHAR_CLASS_TABLE`. -/
def isDigitFast (c : Char) : Bool := 48 ≤ c.toNat && c.toNat ≤ 57

/-- `isAlnumFast` from `CHAR_CLASS_TABLE` (ALPHA or DIGIT bit). -/
def isAlnumFast (c : Char) : Bool := isAlphaFast c || isDigitFast c

/-- `isWhitespaceFast`: space, horizontal tab, vertical tab, form feed. -/
def isWhitespaceFast (c : Char) : Bool :=
  c == ' ' || c == '\t' || c.toNat == 11 || c.toNat == 12

/-- `isNewlineFast`: line feed or carriage return. -/
def isNewlineFast (c : Char) : Bool := c == '\n' || c == '\r'

/-- `isHexDigitFast` from `CHAR_CLASS_TABLE` (DIGIT or HEX bit). -/
def isHexDigitFast (c : Char) : Bool :=
  isDigitFast c || (65 ≤ c.toNat && c.toNat ≤ 70) ||
    (97 ≤ c.toNat && c.toNat ≤ 102)

/-- The explicit hex-digit range test written out inside `lexString` and
`lexCharLiteral` (`0-9`, `A-F`, `a-f`). -/
def isHexRange (c : Char) : Bool :=
  ('0' ≤ c && c ≤ '9') || ('A' ≤ c && c ≤ 'F') || ('a' ≤ c && c ≤ 'f')

/-- The octal-digit range test of the escape scanners. -/
def isOctalRange (c : Char) : Bool := '0' ≤ c && c ≤ '7'

/-- The scalar scan loop `while (ptr < end && p(*ptr)) ++ptr` shared by
the sub-lexers, returning the final cursor. -/
def scanWhile (p : Char → Bool) (src : List Char) (pos : Nat) : Nat :=
  if pos < src.length then
    if p (charAt src pos) then scanWhile p src (pos + 1) else pos
  else pos
termination_by src.length - pos

/-- The bounded scan loop `for (i = 0; i < n && ptr < end; ++i) { if
(p(*ptr)) ++ptr; else break; }` of the escape-sequence scanners. -/
def scanUpTo (p : Char → Bool) (src : List Char) : Nat → Nat → Nat
  | 0, pos => pos
  | n + 1, pos =>
      if pos < src.length && p (charAt src pos) then scanUpTo p src n (pos + 1)
      else pos

theorem scanWhile_ge (p : Char → Bool) (src : List Char) (pos : Nat) :
    pos ≤ scanWhile p src pos := by
  induction pos using scanWhile.induct p src with
  | case1 pos hlt hp ih => rw [scanWhile, if_pos hlt, if_pos hp]; omega
  | case2 pos hlt hp => rw [scanWhile, if_pos hlt, if_neg hp]
  | case3 pos h => rw [scanWhile, if_neg h]

theorem scanWhile_gt (p : Char → Bool) (src : List Char) (pos : Nat)
    (hlt : pos < src.length) (hp : p (charAt src pos) = true) :
    pos < scanWhile p src pos := by
  rw [scanWhile, if_pos hlt, if_pos hp]
  exact Nat.lt_of_lt_of_le (Nat.lt_succ_self pos) (scanWhile_ge p src (pos + 1))

theorem scanUpTo_ge (p : Char → Bool) (src : List Char) (n pos : Nat) :
    pos ≤ scanUpTo p src n pos := by
  induction n generalizing pos with
  | zero => exact Nat.le_refl _
  | succ n ih =>
      rw [scanUpTo]
      split
      · exact Nat.le_trans (Nat.le_succ pos) (ih (pos + 1))
      · exact Nat.le_refl _

theorem lt_length_of_charAt_eq (src : List Char) (pos : Nat) (c : Char)
    (hc : c ≠ '\x00') (h : charAt src pos = c) : pos < src.length := by
  by_contra hge
  rw [charAt, List.getD_eq_default] at h
  · exact hc h.symm
  · omega

/-- `Lexer::handleNewline`: consume `CR LF`, lone `CR`, or lone `LF`; the
caller's `lineStart` becomes the returned cursor. -/
def handleNewline (src : List Char) (pos : Nat) : Nat :=
  if charAt src pos = '\r' then
    if charAt src (pos + 1) = '\n' then pos + 2 else pos + 1
  else if charAt src pos = '\n' then pos + 1
  else pos

theorem handleNewline_ge (src : List Char) (pos : Nat) :
    pos ≤ handleNewline src pos := by
  unfold handleNewline
  split_ifs <;> omega

theorem handleNewline_gt (src : List Char) (pos : Nat)
    (h : isNewlineFast (charAt src pos) = true) : pos < handleNewline src pos := by
  unfold handleNewline
  have h' : charAt src pos = '\n' ∨ charAt src pos = '\r' := by
    simpa [isNewlineFast] using h
  rcases h' with hn | hr
  · rw [if_neg (by rw [hn]; decide), if_pos hn]
    omega
  · rw [if_pos hr]
    split <;> omega

/-- The `std::string_view` comparison `operator<`: byte-wise lexicographic
order on the character sequences. -/
def charListLt : List Char → List Char → Bool
  | _, [] => false
  | [], _ :: _ => true
  | a :: as, b :: bs =>
      if a.toNat < b.toNat then true
      else if b.toNat < a.toNat then false
      else charListLt as bs

/-- `KEYWORD_TABLE`: declared as a `std::array` of 27 pairs but listing
only 26 initializers, so the 27th entry is value-initialized to the empty
string with the zero token kind (`Unknown`); the entries appear in the
source order, with `"for"` listed before `"fn"`.  Spellings are kept as
character lists to mirror the byte-wise `std::string_view` comparisons. -/
def KEYWORD_TABLE : List (List Char × TokenKind) :=
  [(['a','u','t','o'], .Auto), (['b','r','e','a','k'], .Break),
   (['c','a','s','e'], .Case), (['c','o','n','s','t'], .Const),
   (['c','o','n','t','i','n','u','e'], .Continue),
   (['d','e','f','a','u','l','t'], .Default), (['d','o'], .Do),
   (['e','l','s','e'], .Else), (['e','n','u','m'], .Enum),
   (['e','x','t','e','r','n'], .Extern), (['f','a','l','s','e'], .False),
   (['f','o','r'], .For), (['f','n'], .Fn), (['i','f'], .If),
   (['i','m','p','o','r','t'], .Import), (['l','e','t'], .Let),
   (['m','o','d'], .Mod), (['m','u','t'], .Mut), (['n','u','l','l'], .Null),
   (['r','e','t','u','r','n'], .Return), (['s','t','r','u','c','t'], .Struct),
   (['s','w','i','t','c','h'], .Switch), (['t','r','u','e'], .True),
   (['t','y','p','e'], .TypeKw), (['v','a','r'], .Var),
   (['w','h','i','l','e'], .While), ([], .Unknown)]

/-- The canonical keyword spellings of this lexer: the table's 26 listed
entries (the value-initialized 27th entry excluded). -/
def keywordSpellings : List (List Char) :=
  (KEYWORD_TABLE.map (·.1)).filter (fun s => s ≠ [])

/-- One halving loop of the canonical `std::lower_bound` implementation
over `KEYWORD_TABLE` with the comparator `pair.first < key`.  The `fuel`
argument only makes the recursion structural: every iteration strictly
shrinks `count`, so with `fuel = count` at the call site the fuel never
runs out. -/
def lowerBoundKwAux (key : List Char) : Nat → Nat → Nat → Nat
  | 0, first, _ => first
  | fuel + 1, first, count =>
    if 0 < count then
      let step := count / 2
      let mid := first + step
      if charListLt (KEYWORD_TABLE.getD mid ([], .Unknown)).1 key then
        lowerBoundKwAux key fuel (mid + 1) (count - (step + 1))
      else
        lowerBoundKwAux key fuel first step
    else first

/-- `getKeywordKindFast`: `std::lower_bound` over the 27-entry table, then
the exact-match check `it != end && it->first == text`; a non-match is an
`Identifier`. -/
def getKeywordKindFast (text : List Char) : TokenKind :=
  let i := lowerBoundKwAux text 27 0 27
  if i < 27 && (KEYWORD_TABLE.getD i ([], .Unknown)).1 == text then
    (KEYWORD_TABLE.getD i ([], .Unknown)).2
  else .Identifier

/-- The inner terminator-search loop shared by `Lexer::skipBlockComment`,
`Lexer::lexComment` and `Lexer::skipTrivialOptimized`: scan to and past
the first `*/`, folding newlines through `handleNewline` (which moves
`lineStart`); on end of input without a terminator stop at `ptr` with
`ptr + 1 >= end`.  Returns (cursor, lineStart). -/
def skipBlockCommentLoop (src : List Char) (pos lineStart : Nat) : Nat × Nat :=
  if pos + 1 < src.length then
    if charAt src pos = '*' ∧ charAt src (pos + 1) = '/' then (pos + 2, lineStart)
    else if isNewlineFast (charAt src pos) then
      skipBlockCommentLoop src (handleNewline src pos) (handleNewline src pos)
    else skipBlockCommentLoop src (pos + 1) lineStart
  else (pos, lineStart)
termination_by src.length - pos
decreasing_by
  · have := handleNewline_gt src pos (by assumption)
    omega
  · omega

theorem skipBlockCommentLoop_ge (src : List Char) (pos lineStart : Nat) :
    pos ≤ (skipBlockCommentLoop src pos lineStart).1 := by
  induction pos, lineStart using skipBlockCommentLoop.induct src with
  | case1 pos lineStart h hterm => rw [skipBlockCommentLoop, if_pos h, if_pos hterm]; omega
  | case2 pos lineStart h hterm hnl ih =>
      rw [skipBlockCommentLoop, if_pos h, if_neg hterm, if_pos hnl]
      exact Nat.le_trans (handleNewline_ge src pos) ih
  | case3 pos lineStart h hterm hnl ih =>
      rw [skipBlockCommentLoop, if_pos h, if_neg hterm, if_neg hnl]
      omega
  | case4 pos lineStart h => rw [skipBlockCommentLoop, if_neg h]

/-- `Lexer::skipLineComment`: skip `//` then scan to (excluding) the next
newline. -/
def skipLineComment (src : List Char) (pos : Nat) : Nat :=
  scanWhile (fun c => !isNewlineFast c) src (pos + 2)

/-- `Lexer::skipBlockComment`: skip `/*` then run the terminator loop. -/
def skipBlockComment (src : List Char) (pos lineStart : Nat) : Nat × Nat :=
  skipBlockCommentLoop src (pos + 2) lineStart

/-- `Lexer::skipTrivialOptimized` at the default options (lookup tables
on, SIMD off): repeatedly consume whitespace runs, newlines (tracking
`lineStart`), `//` comments and `/*` comments, stopping at the first
non-trivia byte (or at a `/` not starting a comment, including a trailing
`/` at the last byte).  Returns (cursor, lineStart). -/
def skipTrivialOptimized (src : List Char) (pos lineStart : Nat) : Nat × Nat :=
  if pos < src.length then
    if isWhitespaceFast (charAt src pos) then
      skipTrivialOptimized src (scanWhile isWhitespaceFast src pos) lineStart
    else if isNewlineFast (charAt src pos) then
      skipTrivialOptimized src (handleNewline src pos) (handleNewline src pos)
    else if charAt src pos = '/' ∧ pos + 1 < src.length then
      if charAt src (pos + 1) = '/' then
        skipTrivialOptimized src
          (scanWhile (fun c => !isNewlineFast c) src (pos + 2)) lineStart
      else if charAt src (pos + 1) = '*' then
        skipTrivialOptimized src (skipBlockCommentLoop src (pos + 2) lineStart).1
          (skipBlockCommentLoop src (pos + 2) lineStart).2
      else (pos, lineStart)
    else (pos, lineStart)
  else (pos, lineStart)
termination_by src.length - pos
decreasing_by
  · have := scanWhile_gt isWhitespaceFast src pos (by assumption) (by assumption)
    omega
  · have := handleNewline_gt src pos (by assumption)
    omega
  · have := scanWhile_ge (fun c => !isNewlineFast c) src (pos + 2)
    omega
  · have := skipBlockCommentLoop_ge src (pos + 2) lineStart
    omega

theorem skipTrivialOptimized_ge (src : List Char) (pos lineStart : Nat) :
    pos ≤ (skipTrivialOptimized src pos lineStart).1 := by
  induction pos, lineStart using skipTrivialOptimized.induct src with
  | case1 pos lineStart h hws ih =>
      rw [skipTrivialOptimized, if_pos h, if_pos hws]
      exact Nat.le_trans (scanWhile_ge isWhitespaceFast src pos) ih
  | case2 pos lineStart h hws hnl ih =>
      rw [skipTrivialOptimized, if_pos h, if_neg hws, if_pos hnl]
      exact Nat.le_trans (handleNewline_ge src pos) ih
  | case3 pos lineStart h hws hnl hsl hline ih =>
      rw [skipTrivialOptimized, if_pos h, if_neg hws, if_neg hnl, if_pos hsl,
        if_pos hline]
      refine Nat.le_trans ?_ ih
      have := scanWhile_ge (fun c => !isNewlineFast c) src (pos + 2)
      omega
  | case4 pos lineStart h hws hnl hsl hline hblock ih =>
      rw [skipTrivialOptimized, if_pos h, if_neg hws, if_neg hnl, if_pos hsl,
        if_neg hline, if_pos hblock]
      refine Nat.le_trans ?_ ih
      have := skipBlockCommentLoop_ge src (pos + 2) lineStart
      omega
  | case5 pos lineStart h hws hnl hsl hline hblock =>
      rw [skipTrivialOptimized, if_pos h, if_neg hws, if_neg hnl, if_pos hsl,
        if_neg hline, if_neg hblock]
  | case6 pos lineStart h hws hnl hsl =>
      rw [skipTrivialOptimized, if_pos h, if_neg hws, if_neg hnl, if_neg hsl]
  | case7 pos lineStart h => rw [skipTrivialOptimized, if_neg h]

/-- The spelling of the bytes in `[a, b)`, as interned by the lexer. -/
def sliceText (src : List Char) (a b : Nat) : List Char :=
  (src.drop a).take (b - a)

/-- `Lexer::lexIdentifier` together with `makeIdentifierToken`: consume
the first byte, scan `isAlnumFast || '_'`, intern the lexeme, classify it
through `getKeywordKindFast`; a keyword kind gets the `IsKeyword` flag, an
`Identifier` stores the interned text. -/
def lexIdentifier (src : List Char) (pos : Nat) : Token × Nat :=
  let start := pos
  let pos2 := scanWhile (fun c => isAlnumFast c || c == '_') src (pos + 1)
  let text := sliceText src start pos2
  let kind := getKeywordKindFast text
  if kind = .Identifier then
    ({ kind := kind, loc := start, length := pos2 - start, text := some text },
     pos2)
  else
    ({ kind := kind, loc := start, length := pos2 - start,
       flags := { isKeyword := true } }, pos2)

theorem lexIdentifier_ge (src : List Char) (pos : Nat) :
    pos ≤ (lexIdentifier src pos).2 := by
  unfold lexIdentifier
  dsimp only
  have := scanWhile_ge (fun c => isAlnumFast c || c == '_') src (pos + 1)
  split <;> dsimp only <;> omega

/-- The integer-part scan of `Lexer::lexNumber`: hex (`0x`), binary
(`0b`) or octal digits after a leading `0`, else a decimal digit run. -/
def lexNumberIntPart (src : List Char) (pos : Nat) : Nat :=
  if charAt src pos = '0' ∧ pos + 1 < src.length then
    if charAt src (pos + 1) = 'x' ∨ charAt src (pos + 1) = 'X' then
      scanWhile isHexDigitFast src (pos + 2)
    else if charAt src (pos + 1) = 'b' ∨ charAt src (pos + 1) = 'B' then
      scanWhile (fun c => c == '0' || c == '1') src (pos + 2)
    else scanWhile isOctalRange src (pos + 1)
  else scanWhile isDigitFast src pos

/-- The decimal-point test of `Lexer::lexNumber`: a `.` at the cursor
directly followed by a digit. -/
def lexNumberIsFloat (src : List Char) (p1 : Nat) : Prop :=
  p1 < src.length ∧ charAt src p1 = '.' ∧ p1 + 1 < src.length ∧
    isDigitFast (charAt src (p1 + 1))

instance (src : List Char) (p1 : Nat) : Decidable (lexNumberIsFloat src p1) :=
  inferInstanceAs (Decidable (_ ∧ _))

/-- The fraction-and-exponent scan of `Lexer::lexNumber`, entered with
the cursor on the decimal point. -/
def lexNumberFloatPart (src : List Char) (p1 : Nat) : Nat :=
  let pf := scanWhile isDigitFast src (p1 + 1)
  if pf < src.length ∧ (charAt src pf = 'e' ∨ charAt src pf = 'E') then
    if pf + 1 < src.length ∧
        (charAt src (pf + 1) = '+' ∨ charAt src (pf + 1) = '-') then
      scanWhile isDigitFast src (pf + 2)
    else scanWhile isDigitFast src (pf + 1)
  else pf

/-- `Lexer::lexNumber`: integer part, optional float part, then a trailing
`isAlphaFast` suffix run; the whole spelling is interned on the token
whose kind is `Float` exactly when the decimal-point test fired. -/
def lexNumber (src : List Char) (pos : Nat) : Token × Nat :=
  let p1 := lexNumberIntPart src pos
  let float := lexNumberIsFloat src p1
  let p2 := if float then lexNumberFloatPart src p1 else p1
  let p3 := scanWhile isAlphaFast src p2
  ({ kind := if float then .Float else .Integer, loc := pos,
     length := p3 - pos, text := some (sliceText src pos p3) }, p3)

theorem lexNumberIntPart_ge (src : List Char) (pos : Nat) :
    pos ≤ lexNumberIntPart src pos := by
  unfold lexNumberIntPart
  split
  · split
    · have := scanWhile_ge isHexDigitFast src (pos + 2); omega
    · split
      · have := scanWhile_ge (fun c => c == '0' || c == '1') src (pos + 2)
        omega
      · have := scanWhile_ge isOctalRange src (pos + 1); omega
  · exact scanWhile_ge isDigitFast src pos

theorem lexNumberFloatPart_ge (src : List Char) (p1 : Nat) :
    p1 ≤ lexNumberFloatPart src p1 := by
  unfold lexNumberFloatPart
  dsimp only
  have hpf := scanWhile_ge isDigitFast src (p1 + 1)
  split
  · split
    · have := scanWhile_ge isDigitFast src (scanWhile isDigitFast src (p1 + 1) + 2)
      omega
    · have := scanWhile_ge isDigitFast src (scanWhile isDigitFast src (p1 + 1) + 1)
      omega
  · omega

theorem lexNumber_ge (src : List Char) (pos : Nat) :
    pos ≤ (lexNumber src pos).2 := by
  unfold lexNumber
  dsimp only
  have h1 := lexNumberIntPart_ge src pos
  have h2 := lexNumberFloatPart_ge src (lexNumberIntPart src pos)
  split
  · have h3 := scanWhile_ge isAlphaFast src
      (lexNumberFloatPart src (lexNumberIntPart src pos))
    omega
  · have h3 := scanWhile_ge isAlphaFast src (lexNumberIntPart src pos)
    omega

/-- The escape-tail scanner shared (textually duplicated) by
`Lexer::lexString` and `Lexer::lexCharLiteral`, entered with the cursor
just past the escape character `escaped`: up to 2 hex digits after `x`,
up to 4 after `u`, up to 8 after `U`, up to 2 more octal digits after an
octal digit; nothing for a simple escape. -/
def escapeSkip (src : List Char) (escaped : Char) (pos : Nat) : Nat :=
  if escaped = 'x' then scanUpTo isHexRange src 2 pos
  else if escaped = 'u' then scanUpTo isHexRange src 4 pos
  else if escaped = 'U' then scanUpTo isHexRange src 8 pos
  else if '0' ≤ escaped ∧ escaped ≤ '7' then scanUpTo isOctalRange src 2 pos
  else pos

theorem escapeSkip_ge (src : List Char) (escaped : Char) (pos : Nat) :
    pos ≤ escapeSkip src escaped pos := by
  unfold escapeSkip
  split_ifs <;> first
    | exact scanUpTo_ge _ src _ pos
    | exact Nat.le_refl pos

/-- The scanning loop of `Lexer::lexString`: advance to the closing
quote, stepping over escape sequences (recording `hasEscapes`), and stop
early at a raw `LF` or `CR` (leaving the cursor on it) or at the end of
input; after a backslash at the end of input the cursor rests one past
the backslash.  Returns (cursor, hasEscapes). -/
def lexStringScan (src : List Char) (quote : Char) (pos : Nat)
    (hasEscapes : Bool) : Nat × Bool :=
  if pos < src.length ∧ charAt src pos ≠ quote then
    if charAt src pos = '\\' then
      if src.length ≤ pos + 1 then (pos + 1, true)
      else
        lexStringScan src quote
          (escapeSkip src (charAt src (pos + 1)) (pos + 2)) true
    else if charAt src pos = '\n' ∨ charAt src pos = '\r' then (pos, hasEscapes)
    else lexStringScan src quote (pos + 1) hasEscapes
  else (pos, hasEscapes)
termination_by src.length - pos
decreasing_by
  · have := escapeSkip_ge src (charAt src (pos + 1)) (pos + 2)
    omega
  · omega

theorem lexStringScan_ge (src : List Char) (quote : Char) (pos : Nat)
    (hasEscapes : Bool) : pos ≤ (lexStringScan src quote pos hasEscapes).1 := by
  induction pos, hasEscapes using lexStringScan.induct src quote with
  | case1 pos hasEscapes h hbs hend =>
      rw [lexStringScan, if_pos h, if_pos hbs, if_pos hend]; omega
  | case2 pos hasEscapes h hbs hend ih =>
      rw [lexStringScan, if_pos h, if_pos hbs, if_neg hend]
      have := escapeSkip_ge src (charAt src (pos + 1)) (pos + 2)
      omega
  | case3 pos hasEscapes h hbs hnl =>
      rw [lexStringScan, if_pos h, if_neg hbs, if_pos hnl]
  | case4 pos hasEscapes h hbs hnl ih =>
      rw [lexStringScan, if_pos h, if_neg hbs, if_neg hnl]
      omega
  | case5 pos hasEscapes h => rw [lexStringScan, if_neg h]

/-- `Lexer::lexString`: consume the opening quote, run the scanning loop;
at the end of input report `UnterminatedStringLiteralError` at the
opening-quote location and stop there, otherwise consume the byte the
loop stopped on as the closing quote.  The raw spelling (quotes included)
is interned; `NeedsCleaning` is set iff an escape was seen. -/
def lexString (src : List Char) (quote : Char) (pos : Nat) :
    Token × List Diag × Nat :=
  let start := pos
  let scan := lexStringScan src quote (pos + 1) false
  let cur := if src.length ≤ scan.1 then scan.1 else scan.1 + 1
  let diags : List Diag :=
    if src.length ≤ scan.1 then [⟨.UnterminatedStringLiteralError, start, []⟩]
    else []
  ({ kind := .String, loc := start, length := cur - start,
     flags := { needsCleaning := scan.2 }, text := some (sliceText src start cur) },
   diags, cur)

theorem lexString_ge (src : List Char) (quote : Char) (pos : Nat) :
    pos ≤ (lexString src quote pos).2.2 := by
  unfold lexString
  dsimp only
  have := lexStringScan_ge src quote (pos + 1) false
  split <;> omega

/-- `Lexer::lexCharLiteral`: consume the opening quote; then one plain
byte, or a backslash, the escape character and its escape tail; if the
cursor is not then on a closing `'` (or input ended), report
`UnterminatedCharacterLiteralError` at the opening-quote location,
otherwise consume the closing quote.  The raw spelling is interned;
`NeedsCleaning` is set iff an escape was seen. -/
def lexCharLiteral (src : List Char) (pos : Nat) : Token × List Diag × Nat :=
  let start := pos
  let body :=
    if pos + 1 < src.length ∧ charAt src (pos + 1) ≠ '\'' then
      if charAt src (pos + 1) = '\\' then
        if pos + 2 < src.length then
          (escapeSkip src (charAt src (pos + 2)) (pos + 3), true)
        else (pos + 2, true)
      else (pos + 2, false)
    else (pos + 1, false)
  let p2 := body.1
  let diags : List Diag :=
    if src.length ≤ p2 ∨ charAt src p2 ≠ '\'' then
      [⟨.UnterminatedCharacterLiteralError, start, []⟩]
    else []
  let cur := if src.length ≤ p2 ∨ charAt src p2 ≠ '\'' then p2 else p2 + 1
  ({ kind := .Character, loc := start, length := cur - start,
     flags := { needsCleaning := body.2 }, text := some (sliceText src start cur) },
   diags, cur)

theorem lexCharLiteral_ge (src : List Char) (pos : Nat) :
    pos ≤ (lexCharLiteral src pos).2.2 := by
  unfold lexCharLiteral
  dsimp only
  have h1 := escapeSkip_ge src (charAt src (pos + 2)) (pos + 3)
  split_ifs <;> dsimp only <;> omega

/-- `Lexer::lexComment` (the `retainComments` path): a `//` comment token
to the next newline, or a `/*` comment token through the terminator loop
(tracking `lineStart`); any other cursor yields a zero-length `Unknown`
token.  Returns (token, cursor, lineStart). -/
def lexComment (src : List Char) (pos lineStart : Nat) : Token × Nat × Nat :=
  if pos + 1 < src.length ∧ charAt src pos = '/' ∧ charAt src (pos + 1) = '/' then
    let p := scanWhile (fun c => !isNewlineFast c) src (pos + 2)
    ({ kind := .LineComment, loc := pos, length := p - pos }, p, lineStart)
  else if pos + 1 < src.length ∧ charAt src pos = '/' ∧ charAt src (pos + 1) = '*' then
    let q := skipBlockCommentLoop src (pos + 2) lineStart
    ({ kind := .BlockComment, loc := pos, length := q.1 - pos }, q.1, q.2)
  else ({ kind := .Unknown, loc := pos, length := 0 }, pos, lineStart)

theorem lexComment_ge (src : List Char) (pos lineStart : Nat) :
    pos ≤ (lexComment src pos lineStart).2.1 := by
  unfold lexComment
  dsimp only
  have h1 := scanWhile_ge (fun c => !isNewlineFast c) src (pos + 2)
  have h2 := skipBlockCommentLoop_ge src (pos + 2) lineStart
  split_ifs <;> dsimp only <;> omega

/-- The two-byte operator dispatch of `Lexer::lexOperator` (the `switch`
over the packed byte pair): the sixteen recognized digraphs and `::`. -/
def pairToken (a b : Char) : Option TokenKind :=
  if a = '+' ∧ b = '=' then some .PlusEqual
  else if a = '+' ∧ b = '+' then some .PlusPlus
  else if a = '-' ∧ b = '=' then some .MinusEqual
  else if a = '-' ∧ b = '-' then some .MinusMinus
  else if a = '-' ∧ b = '>' then some .Arrow
  else if a = '*' ∧ b = '=' then some .StarEqual
  else if a = '/' ∧ b = '=' then some .SlashEqual
  else if a = '%' ∧ b = '=' then some .PercentEqual
  else if a = '=' ∧ b = '=' then some .EqualEqual
  else if a = '!' ∧ b = '=' then some .NotEqual
  else if a = '<' ∧ b = '=' then some .LessEqual
  else if a = '<' ∧ b = '<' then some .LesserLesser
  else if a = '>' ∧ b = '=' then some .GreaterEqual
  else if a = '>' ∧ b = '>' then some .GreaterGreater
  else if a = '&' ∧ b = '&' then some .AmpAmp
  else if a = '|' ∧ b = '|' then some .PipePipe
  else if a = ':' ∧ b = ':' then some .ColonColon
  else none

/-- The 128-entry single-byte operator table `SINGLE_CHAR_TOKENS` of
`Lexer::lexOperator` (every unlisted byte maps to `Unknown`; the fallback
`switch` used when lookup tables are disabled lists the same 27 bytes). -/
def SINGLE_CHAR_TOKENS (c : Char) : TokenKind :=
  if c = '+' then .Plus else if c = '-' then .Minus
  else if c = '*' then .Star else if c = '/' then .Slash
  else if c = '%' then .Percent else if c = '=' then .Equal
  else if c = '!' then .Exclaim else if c = '<' then .Less
  else if c = '>' then .Greater else if c = '&' then .Amp
  else if c = '|' then .Pipe else if c = '^' then .Caret
  else if c = '~' then .Tilde else if c = '(' then .LeftParen
  else if c = ')' then .RightParen else if c = '{' then .LeftBrace
  else if c = '}' then .RightBrace else if c = '[' then .LeftBracket
  else if c = ']' then .RightBracket else if c = ';' then .Semicolon
  else if c = ',' then .Comma else if c = '.' then .Dot
  else if c = ':' then .Colon else if c = '?' then .Question
  else if c = '@' then .At else if c = '#' then .Hash
  else if c = '\\' then .Backslash
  else .Unknown

/-- `Lexer::lexOperator`: consume one byte; if the next byte completes a
recognized digraph consume it too; else a recognized single byte under
128 is its own token; any other byte yields an `Unknown` token of length
1 and one `UnexpectedValueError` diagnostic at the byte's location whose
arguments carry the expected-value description and either the printable
character itself or its numeric character code (bytes below 32 or at and
above 127 count as non-printable). -/
def lexOperator (src : List Char) (pos : Nat) : Token × List Diag × Nat :=
  let start := pos
  let c := charAt src pos
  let pk := if pos + 1 < src.length then pairToken c (charAt src (pos + 1))
            else none
  match pk with
  | some k => ({ kind := k, loc := start, length := 2 }, [], pos + 2)
  | none =>
    if c.toNat < 128 ∧ SINGLE_CHAR_TOKENS c ≠ .Unknown then
      ({ kind := SINGLE_CHAR_TOKENS c, loc := start, length := 1 }, [], pos + 1)
    else
      let diag : Diag :=
        if c.toNat < 32 ∨ 127 ≤ c.toNat then
          ⟨.UnexpectedValueError, start,
            ["valid character (non-printable character)",
             "character code: " ++ toString c.toNat]⟩
        else ⟨.UnexpectedValueError, start, ["valid character", String.singleton c]⟩
      ({ kind := .Unknown, loc := start, length := 1 }, [diag], pos + 1)

theorem lexOperator_ge (src : List Char) (pos : Nat) :
    pos ≤ (lexOperator src pos).2.2 := by
  unfold lexOperator
  dsimp only
  split
  · simp
  · split <;> simp

/-- The `LexerOptions` fields that shape the token stream.  The
performance flags are fixed at their defaults (`enableLookupTables`,
`enableFastPath`, `enablePrefetching` true, `enableSimdOptimizations`
false); the source's fallback classifiers recognize the same bytes, and
per the spec these flags must not alter the emitted stream. -/
structure LexerOptions where
  retainComments : Bool := false
  retainWhitespace : Bool := false
  deriving Repr, DecidableEq

/-- The observable result of one `Lexer::nextToken` call: the token, the
cursor and `lineStart` afterwards, and the diagnostics reported during
the call. -/
structure LexResult where
  token : Token
  pos : Nat
  lineStart : Nat
  diags : List Diag
  deriving Repr, DecidableEq

/-- The tail of `Lexer::nextToken` after token dispatch: set
`AtStartOfLine` when lexing began at the line start, and force a one-byte
advance if no sub-lexer consumed input and the end was not reached. -/
def finishToken (src : List Char) (startPos : Nat) (atStartOfLine : Bool)
    (tok : Token) (pos lineStart : Nat) (diags : List Diag) : LexResult :=
  let tok' := if atStartOfLine then
      { tok with flags := { tok.flags with atStartOfLine := true } } else tok
  if pos = startPos ∧ pos < src.length then
    { token := tok', pos := pos + 1, lineStart := lineStart, diags := diags }
  else { token := tok', pos := pos, lineStart := lineStart, diags := diags }

/-- The trivia prefix skipped by `Lexer::nextToken` before dispatch: the
optimized skip when neither retain flag is set, else nothing. -/
def triviaSkip (opts : LexerOptions) (src : List Char) (pos lineStart : Nat) :
    Nat × Nat :=
  if !opts.retainWhitespace && !opts.retainComments then
    skipTrivialOptimized src pos lineStart
  else (pos, lineStart)

theorem triviaSkip_ge (opts : LexerOptions) (src : List Char)
    (pos lineStart : Nat) : pos ≤ (triviaSkip opts src pos lineStart).1 := by
  unfold triviaSkip
  split
  · exact skipTrivialOptimized_ge src pos lineStart
  · exact Nat.le_refl _

/-- `skipLineComment` advances the cursor by at least the two comment
markers. -/
theorem skipLineComment_gt (src : List Char) (pos : Nat) :
    pos < skipLineComment src pos := by
  unfold skipLineComment
  have := scanWhile_ge (fun c => !isNewlineFast c) src (pos + 2)
  omega

/-- `skipBlockComment` advances the cursor by at least the two comment
markers. -/
theorem skipBlockComment_gt (src : List Char) (pos lineStart : Nat) :
    pos < (skipBlockComment src pos lineStart).1 := by
  unfold skipBlockComment
  have := skipBlockCommentLoop_ge src (pos + 2) lineStart
  omega

/-- The cursor after the trivia prefix of `Lexer::nextToken`. -/
def triviaPos (opts : LexerOptions) (src : List Char) (pos lineStart : Nat) : Nat :=
  (triviaSkip opts src pos lineStart).1

/-- The `lineStart` after the trivia prefix of `Lexer::nextToken`. -/
def triviaLS (opts : LexerOptions) (src : List Char) (pos lineStart : Nat) : Nat :=
  (triviaSkip opts src pos lineStart).2

theorem triviaPos_ge (opts : LexerOptions) (src : List Char)
    (pos lineStart : Nat) : pos ≤ triviaPos opts src pos lineStart :=
  triviaSkip_ge opts src pos lineStart

/-- `Lexer::nextToken` at the default performance options (fast path and
lookup tables on): skip trivia when it is not retained, emit `EndOfFile`
at the end of input, else dispatch on the byte under the cursor —
identifier, number, whitespace and newline (emitted as trivia tokens when
`retainWhitespace`, else skipped and rescanned), string and character
literals, comments (emitted when `retainComments`, else skipped and
rescanned), and operators — then apply the `AtStartOfLine` flag and the
forced one-byte advance.  Below, `p0` abbreviates the post-trivia cursor
`triviaPos opts src pos lineStart` and `ls0` the post-trivia line start.
The peek buffer is empty throughout (the `tokenizeString` loop never
peeks). -/
def nextToken (opts : LexerOptions) (src : List Char) (pos lineStart : Nat) :
    LexResult :=
  if src.length ≤ triviaPos opts src pos lineStart then
    { token := { kind := .EndOfFile,
                 loc := triviaPos opts src pos lineStart, length := 0 },
      pos := triviaPos opts src pos lineStart,
      lineStart := triviaLS opts src pos lineStart, diags := [] }
  else if isAlphaFast (charAt src (triviaPos opts src pos lineStart)) ||
      charAt src (triviaPos opts src pos lineStart) == '_' then
    finishToken src (triviaPos opts src pos lineStart)
      (triviaPos opts src pos lineStart == triviaLS opts src pos lineStart)
      (lexIdentifier src (triviaPos opts src pos lineStart)).1
      (lexIdentifier src (triviaPos opts src pos lineStart)).2
      (triviaLS opts src pos lineStart) []
  else if isDigitFast (charAt src (triviaPos opts src pos lineStart)) then
    finishToken src (triviaPos opts src pos lineStart)
      (triviaPos opts src pos lineStart == triviaLS opts src pos lineStart)
      (lexNumber src (triviaPos opts src pos lineStart)).1
      (lexNumber src (triviaPos opts src pos lineStart)).2
      (triviaLS opts src pos lineStart) []
  else if isWhitespaceFast (charAt src (triviaPos opts src pos lineStart)) then
    if opts.retainWhitespace then
      finishToken src (triviaPos opts src pos lineStart)
        (triviaPos opts src pos lineStart == triviaLS opts src pos lineStart)
        { kind := .Whitespace, loc := triviaPos opts src pos lineStart,
          length := scanWhile isWhitespaceFast src
              (triviaPos opts src pos lineStart) -
            triviaPos opts src pos lineStart }
        (scanWhile isWhitespaceFast src (triviaPos opts src pos lineStart))
        (triviaLS opts src pos lineStart) []
    else
      nextToken opts src
        (scanWhile isWhitespaceFast src (triviaPos opts src pos lineStart))
        (triviaLS opts src pos lineStart)
  else if isNewlineFast (charAt src (triviaPos opts src pos lineStart)) then
    if opts.retainWhitespace then
      finishToken src (triviaPos opts src pos lineStart)
        (triviaPos opts src pos lineStart == triviaLS opts src pos lineStart)
        { kind := .Newline, loc := triviaPos opts src pos lineStart,
          length := handleNewline src (triviaPos opts src pos lineStart) -
            triviaPos opts src pos lineStart }
        (handleNewline src (triviaPos opts src pos lineStart))
        (handleNewline src (triviaPos opts src pos lineStart)) []
    else
      nextToken opts src (handleNewline src (triviaPos opts src pos lineStart))
        (handleNewline src (triviaPos opts src pos lineStart))
  else if charAt src (triviaPos opts src pos lineStart) = '"' then
    finishToken src (triviaPos opts src pos lineStart)
      (triviaPos opts src pos lineStart == triviaLS opts src pos lineStart)
      (lexString src '"' (triviaPos opts src pos lineStart)).1
      (lexString src '"' (triviaPos opts src pos lineStart)).2.2
      (triviaLS opts src pos lineStart)
      (lexString src '"' (triviaPos opts src pos lineStart)).2.1
  else if charAt src (triviaPos opts src pos lineStart) = '\'' then
    finishToken src (triviaPos opts src pos lineStart)
      (triviaPos opts src pos lineStart == triviaLS opts src pos lineStart)
      (lexCharLiteral src (triviaPos opts src pos lineStart)).1
      (lexCharLiteral src (triviaPos opts src pos lineStart)).2.2
      (triviaLS opts src pos lineStart)
      (lexCharLiteral src (triviaPos opts src pos lineStart)).2.1
  else if charAt src (triviaPos opts src pos lineStart) = '/' ∧
      triviaPos opts src pos lineStart + 1 < src.length ∧
      (charAt src (triviaPos opts src pos lineStart + 1) = '/' ∨
        charAt src (triviaPos opts src pos lineStart + 1) = '*') then
    if opts.retainComments then
      finishToken src (triviaPos opts src pos lineStart)
        (triviaPos opts src pos lineStart == triviaLS opts src pos lineStart)
        (lexComment src (triviaPos opts src pos lineStart)
          (triviaLS opts src pos lineStart)).1
        (lexComment src (triviaPos opts src pos lineStart)
          (triviaLS opts src pos lineStart)).2.1
        (lexComment src (triviaPos opts src pos lineStart)
          (triviaLS opts src pos lineStart)).2.2 []
    else if charAt src (triviaPos opts src pos lineStart + 1) = '/' then
      nextToken opts src (skipLineComment src (triviaPos opts src pos lineStart))
        (triviaLS opts src pos lineStart)
    else
      nextToken opts src
        (skipBlockComment src (triviaPos opts src pos lineStart)
          (triviaLS opts src pos lineStart)).1
        (skipBlockComment src (triviaPos opts src pos lineStart)
          (triviaLS opts src pos lineStart)).2
  else
    finishToken src (triviaPos opts src pos lineStart)
      (triviaPos opts src pos lineStart == triviaLS opts src pos lineStart)
      (lexOperator src (triviaPos opts src pos lineStart)).1
      (lexOperator src (triviaPos opts src pos lineStart)).2.2
      (triviaLS opts src pos lineStart)
      (lexOperator src (triviaPos opts src pos lineStart)).2.1
termination_by src.length - pos
decreasing_by
  all_goals have h0 := triviaPos_ge opts src pos lineStart
  · have h1 := scanWhile_gt isWhitespaceFast src
      (triviaPos opts src pos lineStart) (by omega) (by assumption)
    omega
  · have h1 := handleNewline_gt src (triviaPos opts src pos lineStart)
      (by assumption)
    omega
  · have h1 := skipLineComment_gt src (triviaPos opts src pos lineStart)
    omega
  · have h1 := skipBlockComment_gt src (triviaPos opts src pos lineStart)
      (triviaLS opts src pos lineStart)
    omega

theorem finishToken_gt (src : List Char) (startPos : Nat) (aSOL : Bool)
    (tok : Token) (pos lineStart : Nat) (diags : List Diag)
    (hge : startPos ≤ pos) (hlt : startPos < src.length) :
    startPos < (finishToken src startPos aSOL tok pos lineStart diags).pos := by
  unfold finishToken
  dsimp only
  split
  · dsimp only; omega
  · next h =>
      dsimp only
      rcases not_and_or.mp h with h | h <;> omega

theorem nextToken_eof_of_le (opts : LexerOptions) (src : List Char)
    (pos lineStart : Nat) (h : src.length ≤ pos) :
    (nextToken opts src pos lineStart).token.kind = .EndOfFile := by
  have h0 := triviaPos_ge opts src pos lineStart
  rw [nextToken, if_pos (by omega)]

/-- Every `nextToken` call either returns the `EndOfFile` token or leaves
the cursor strictly advanced (every sub-lexer consumes input, and the
forced one-byte advance catches any that would not). -/
theorem nextToken_progress (opts : LexerOptions) (src : List Char)
    (pos lineStart : Nat) :
    (nextToken opts src pos lineStart).token.kind = .EndOfFile ∨
    pos < (nextToken opts src pos lineStart).pos := by
  have h0 := triviaPos_ge opts src pos lineStart
  induction pos, lineStart using nextToken.induct opts src with
  | case1 pos lineStart hEnd =>
      left
      rw [nextToken, if_pos hEnd]
  | case2 pos lineStart hEnd hAl =>
      right
      rw [nextToken, if_neg hEnd, if_pos hAl]
      refine Nat.lt_of_le_of_lt h0 (finishToken_gt _ _ _ _ _ _ _ ?_ (by omega))
      exact lexIdentifier_ge src _
  | case3 pos lineStart hEnd hAl hDig =>
      right
      rw [nextToken, if_neg hEnd, if_neg hAl, if_pos hDig]
      refine Nat.lt_of_le_of_lt h0 (finishToken_gt _ _ _ _ _ _ _ ?_ (by omega))
      exact lexNumber_ge src _
  | case4 pos lineStart hEnd hAl hDig hWs hRw =>
      right
      rw [nextToken, if_neg hEnd, if_neg hAl, if_neg hDig, if_pos hWs, if_pos hRw]
      refine Nat.lt_of_le_of_lt h0 (finishToken_gt _ _ _ _ _ _ _ ?_ (by omega))
      exact scanWhile_ge isWhitespaceFast src _
  | case5 pos lineStart hEnd hAl hDig hWs hRw ih =>
      rw [nextToken, if_neg hEnd, if_neg hAl, if_neg hDig, if_pos hWs, if_neg hRw]
      have hgt := scanWhile_gt isWhitespaceFast src
        (triviaPos opts src pos lineStart) (by omega) hWs
      rcases ih (triviaPos_ge opts src _ _) with hEOF | hlt
      · left; exact hEOF
      · right; omega
  | case6 pos lineStart hEnd hAl hDig hWs hNl hRw =>
      right
      rw [nextToken, if_neg hEnd, if_neg hAl, if_neg hDig, if_neg hWs,
        if_pos hNl, if_pos hRw]
      refine Nat.lt_of_le_of_lt h0 (finishToken_gt _ _ _ _ _ _ _ ?_ (by omega))
      exact handleNewline_ge src _
  | case7 pos lineStart hEnd hAl hDig hWs hNl hRw ih =>
      rw [nextToken, if_neg hEnd, if_neg hAl, if_neg hDig, if_neg hWs,
        if_pos hNl, if_neg hRw]
      have hgt := handleNewline_gt src (triviaPos opts src pos lineStart) hNl
      rcases ih (triviaPos_ge opts src _ _) with hEOF | hlt
      · left; exact hEOF
      · right; omega
  | case8 pos lineStart hEnd hAl hDig hWs hNl hQ =>
      right
      rw [nextToken, if_neg hEnd, if_neg hAl, if_neg hDig, if_neg hWs,
        if_neg hNl, if_pos hQ]
      refine Nat.lt_of_le_of_lt h0 (finishToken_gt _ _ _ _ _ _ _ ?_ (by omega))
      exact lexString_ge src '"' _
  | case9 pos lineStart hEnd hAl hDig hWs hNl hQ hC =>
      right
      rw [nextToken, if_neg hEnd, if_neg hAl, if_neg hDig, if_neg hWs,
        if_neg hNl, if_neg hQ, if_pos hC]
      refine Nat.lt_of_le_of_lt h0 (finishToken_gt _ _ _ _ _ _ _ ?_ (by omega))
      exact lexCharLiteral_ge src _
  | case10 pos lineStart hEnd hAl hDig hWs hNl hQ hC hCm hRc =>
      right
      rw [nextToken, if_neg hEnd, if_neg hAl, if_neg hDig, if_neg hWs,
        if_neg hNl, if_neg hQ, if_neg hC, if_pos hCm, if_pos hRc]
      refine Nat.lt_of_le_of_lt h0 (finishToken_gt _ _ _ _ _ _ _ ?_ (by omega))
      exact lexComment_ge src _ _
  | case11 pos lineStart hEnd hAl hDig hWs hNl hQ hC hCm hRc hLine ih =>
      rw [nextToken, if_neg hEnd, if_neg hAl, if_neg hDig, if_neg hWs,
        if_neg hNl, if_neg hQ, if_neg hC, if_pos hCm, if_neg hRc, if_pos hLine]
      have hgt := skipLineComment_gt src (triviaPos opts src pos lineStart)
      rcases ih (triviaPos_ge opts src _ _) with hEOF | hlt
      · left; exact hEOF
      · right; omega
  | case12 pos lineStart hEnd hAl hDig hWs hNl hQ hC hCm hRc hLine ih =>
      rw [nextToken, if_neg hEnd, if_neg hAl, if_neg hDig, if_neg hWs,
        if_neg hNl, if_neg hQ, if_neg hC, if_pos hCm, if_neg hRc, if_neg hLine]
      have hgt := skipBlockComment_gt src (triviaPos opts src pos lineStart)
        (triviaLS opts src pos lineStart)
      rcases ih (triviaPos_ge opts src _ _) with hEOF | hlt
      · left; exact hEOF
      · right; omega
  | case13 pos lineStart hEnd hAl hDig hWs hNl hQ hC hCm =>
      right
      rw [nextToken, if_neg hEnd, if_neg hAl, if_neg hDig, if_neg hWs,
        if_neg hNl, if_neg hQ, if_neg hC, if_neg hCm]
      refine Nat.lt_of_le_of_lt h0 (finishToken_gt _ _ _ _ _ _ _ ?_ (by omega))
      exact lexOperator_ge src _

/-- The token-collection loop of `tokenizeString`: `do { token =
lexer.nextToken(); tokens.push_back(token); } while (token.getKind() !=
EndOfFile)`, with a fuel bound making the recursion structural; `none`
means the fuel ran out. -/
def tokenizeLoop (opts : LexerOptions) (src : List Char) :
    Nat → Nat → Nat → Option (List Token)
  | 0, _, _ => none
  | fuel + 1, pos, lineStart =>
    let r := nextToken opts src pos lineStart
    if r.token.kind = .EndOfFile then some [r.token]
    else
      match tokenizeLoop opts src fuel r.pos r.lineStart with
      | some ts => some (r.token :: ts)
      | none => none

/-- `tokenizeString` on a raw buffer: the collection loop started at the
beginning with fuel `length + 1`. -/
def tokenizeString (opts : LexerOptions) (src : List Char) :
    Option (List Token) :=
  tokenizeLoop opts src (src.length + 1) 0 0

theorem tokenizeLoop_terminates (opts : LexerOptions) (src : List Char)
    (fuel : Nat) : ∀ pos lineStart, src.length - pos < fuel →
    ∃ ts t, tokenizeLoop opts src fuel pos lineStart = some (ts ++ [t]) ∧
      t.kind = .EndOfFile ∧ ts.length + 1 ≤ fuel := by
  induction fuel with
  | zero => intro pos lineStart h; omega
  | succ fuel ih =>
      intro pos lineStart h
      rw [tokenizeLoop]
      by_cases hEOF : (nextToken opts src pos lineStart).token.kind = .EndOfFile
      · exact ⟨[], (nextToken opts src pos lineStart).token,
          by rw [if_pos hEOF]; rfl, hEOF, by simp⟩
      · rw [if_neg hEOF]
        have hgt : pos < (nextToken opts src pos lineStart).pos := by
          rcases nextToken_progress opts src pos lineStart with h' | h'
          · exact absurd h' hEOF
          · exact h'
        have hpos : pos < src.length := by
          by_contra hge
          exact hEOF (nextToken_eof_of_le opts src pos lineStart (by omega))
        obtain ⟨ts, t, heq, hk, hlen⟩ := ih (nextToken opts src pos lineStart).pos
          (nextToken opts src pos lineStart).lineStart (by omega)
        refine ⟨(nextToken opts src pos lineStart).token :: ts, t, ?_, hk,
          by simp; omega⟩
        rw [heq]
        rfl

/-- C8.  Lexer progress and termination: every `nextToken` call either
returns an `EndOfFile` token or strictly advances the cursor (the forced
one-byte advance guards any case where no sub-lexer consumed input), so
the `tokenizeString` loop on any finite input and any option set reaches
an `EndOfFile` token within `length + 1` `nextToken` calls and always
terminates. -/
theorem nextToken_progress_and_termination :
    (∀ (opts : LexerOptions) (src : List Char) (pos lineStart : Nat),
      (nextToken opts src pos lineStart).token.kind = .EndOfFile ∨
      pos < (nextToken opts src pos lineStart).pos) ∧
    (∀ (opts : LexerOptions) (src : List Char),
      ∃ ts t, tokenizeString opts src = some (ts ++ [t]) ∧
        t.kind = .EndOfFile ∧ ts.length + 1 ≤ src.length + 1) := by
  refine ⟨nextToken_progress, fun opts src => ?_⟩
  exact tokenizeLoop_terminates opts src (src.length + 1) 0 0 (by omega)

/-- C2 counter-evidence.  Lexing the string literal at offset 0 of
`"a<LF>b`: the raw LF terminates the scan, but the unterminated check
`ptr >= end` only fires at end of input, so the newline byte is consumed
as if it were the closing quote, a String token covering `"a<LF>` is
produced, and no diagnostic at all is reported (versus exactly one
`UnterminatedStringLiteral` claimed).  The end-of-input case, by
contrast, does report: lexing `"a` emits the diagnostic at the
opening-quote location. -/
theorem lexString_newline_failing_input :
    lexString ['"', 'a', '\n', 'b'] '"' 0 =
      ({ kind := .String, loc := 0, length := 3,
         flags := { needsCleaning := false }, text := some ['"', 'a', '\n'] },
       [], 3) ∧
    lexString ['"', 'a'] '"' 0 =
      ({ kind := .String, loc := 0, length := 2,
         flags := { needsCleaning := false }, text := some ['"', 'a'] },
       [⟨.UnterminatedStringLiteralError, 0, []⟩], 2) := by
  constructor <;>
    simp +decide [lexString, lexStringScan, charAt, sliceText, escapeSkip]

/-- C3 counter-evidence.  `getKeywordKindFast` is a binary search that
requires a sorted table, but `KEYWORD_TABLE` lists `"for"` before `"fn"`
and carries a value-initialized empty 27th entry, so the spellings `fn`,
`for` and `while` — all in the keyword table — miss their entries and
lex to `Identifier` tokens (the remaining 23 keywords, e.g. `mod`, do
resolve). -/
theorem keyword_dichotomy_failing_input :
    getKeywordKindFast ['f', 'n'] = .Identifier ∧
    getKeywordKindFast ['f', 'o', 'r'] = .Identifier ∧
    getKeywordKindFast ['w', 'h', 'i', 'l', 'e'] = .Identifier ∧
    ['f', 'n'] ∈ keywordSpellings ∧ ['f', 'o', 'r'] ∈ keywordSpellings ∧
    ['w', 'h', 'i', 'l', 'e'] ∈ keywordSpellings ∧
    (lexIdentifier ['f', 'n'] 0).1.kind = .Identifier ∧
    (lexIdentifier ['f', 'n'] 0).1.text = some ['f', 'n'] ∧
    (lexIdentifier ['f', 'n'] 0).1.flags.isKeyword = false ∧
    getKeywordKindFast ['m', 'o', 'd'] = .Mod ∧ getKeywordKindFast ['i', 'f'] = .If := by
  refine ⟨by decide, by decide, by decide, by decide, by decide, by decide,
    ?_, ?_, ?_, by decide, by decide⟩ <;>
    simp +decide [lexIdentifier, scanWhile, charAt, isAlnumFast, isAlphaFast,
      isDigitFast, sliceText]

/-- The single-byte operator/punctuation set recognized by
`Lexer::lexOperator`: a byte under 128 with a non-`Unknown` entry in
`SINGLE_CHAR_TOKENS`. -/
def isRecognizedOpChar (c : Char) : Bool :=
  decide (c.toNat < 128 ∧ SINGLE_CHAR_TOKENS c ≠ .Unknown)

theorem pairToken_eq_none (a b : Char)
    (h : ¬(a.toNat < 128 ∧ SINGLE_CHAR_TOKENS a ≠ .Unknown)) :
    pairToken a b = none := by
  have h1 : a ≠ '+' := by rintro rfl; exact h (by decide)
  have h2 : a ≠ '-' := by rintro rfl; exact h (by decide)
  have h3 : a ≠ '*' := by rintro rfl; exact h (by decide)
  have h4 : a ≠ '/' := by rintro rfl; exact h (by decide)
  have h5 : a ≠ '%' := by rintro rfl; exact h (by decide)
  have h6 : a ≠ '=' := by rintro rfl; exact h (by decide)
  have h7 : a ≠ '!' := by rintro rfl; exact h (by decide)
  have h8 : a ≠ '<' := by rintro rfl; exact h (by decide)
  have h9 : a ≠ '>' := by rintro rfl; exact h (by decide)
  have h10 : a ≠ '&' := by rintro rfl; exact h (by decide)
  have h11 : a ≠ '|' := by rintro rfl; exact h (by decide)
  have h12 : a ≠ ':' := by rintro rfl; exact h (by decide)
  simp [pairToken, h1, h2, h3, h4, h5, h6, h7, h8, h9, h10, h11, h12]

/-- C6.  Every byte handed to `lexOperator` that is not in the recognized
operator/punctuation set yields an `Unknown` token of length 1 and
exactly one `UnexpectedValueError` diagnostic at the byte's location,
carrying the expected-value description and either the printable
character itself or its numeric character code. -/
theorem lexOperator_unknown_byte (src : List Char) (pos : Nat)
    (_hpos : pos < src.length)
    (h : isRecognizedOpChar (charAt src pos) = false) :
    lexOperator src pos =
      ({ kind := .Unknown, loc := pos, length := 1 },
       [if (charAt src pos).toNat < 32 ∨ 127 ≤ (charAt src pos).toNat then
          ⟨.UnexpectedValueError, pos,
            ["valid character (non-printable character)",
             "character code: " ++ toString (charAt src pos).toNat]⟩
        else
          ⟨.UnexpectedValueError, pos,
            ["valid character", String.singleton (charAt src pos)]⟩],
       pos + 1) := by
  have h' : ¬((charAt src pos).toNat < 128 ∧
      SINGLE_CHAR_TOKENS (charAt src pos) ≠ .Unknown) := by
    simpa [isRecognizedOpChar] using h
  unfold lexOperator
  dsimp only
  have hpair : (if pos + 1 < src.length then
      pairToken (charAt src pos) (charAt src (pos + 1)) else none) = none := by
    split
    · exact pairToken_eq_none _ _ h'
    · rfl
  rw [hpair, if_neg h']

/-- Witness for `lexOperator_unknown_byte`: the DEL byte `0x7F` is not a
recognized operator byte; an `Unknown` token of length 1 and one
non-printable `UnexpectedValueError` diagnostic (code 127) result. -/
theorem lexOperator_unknown_byte_witness :
    (0 < ([ '\x7F' ] : List Char).length ∧
      isRecognizedOpChar (charAt ['\x7F'] 0) = false) ∧
    lexOperator ['\x7F'] 0 =
      ({ kind := .Unknown, loc := 0, length := 1 },
       [if (charAt ['\x7F'] 0).toNat < 32 ∨ 127 ≤ (charAt ['\x7F'] 0).toNat then
          ⟨.UnexpectedValueError, 0,
            ["valid character (non-printable character)",
             "character code: " ++ toString (charAt ['\x7F'] 0).toNat]⟩
        else
          ⟨.UnexpectedValueError, 0,
            ["valid character", String.singleton (charAt ['\x7F'] 0)]⟩],
       0 + 1) :=
  ⟨⟨by decide, by decide⟩, lexOperator_unknown_byte ['\x7F'] 0 (by decide) (by decide)⟩

end ML
